import Mathlib

/-!
Shallow embedding of the concurrent range-download engine of `rtget`
(Rust sources under `src/`), together with theorems settling the frozen
claims about its specification.

Modelling conventions:
* Rust `usize`/`u64` values are modelled as `Nat`.  On every code path a
  theorem ranges over, the concrete subtractions of the source never go
  below zero (this is itself proved where it matters), so truncated `Nat`
  subtraction coincides with the machine arithmetic.  Where the source CAN
  underflow (the planner at `total_file_size = 0`) a second, checked
  embedding with the panicking debug semantics of Rust (`Option`, `none` =
  panic) is provided and clearly named.
* Network input is a parameter: HTTP status, `Content-Range` header and
  the sequence of body buffers received by the stream are arguments of the
  embedded functions.
* File I/O is modelled as infallible; writes are recorded as explicit
  events `(part_offset, size)` so that sequential-fill properties can be
  stated.
-/

namespace Rtget

/-- Error type `AppError` from `src/error.rs`. -/
inductive AppError where
  | UrlParseError (msg : String)
  | InvalidScheme
  | InvalidHostname
  | UrlValidationError (msg : String)
  | CouldNotConnect (msg : String)
  | UnsupportedProtocol
  | StringError (msg : String)
  | CouldNotReadChunk (msg : String)
  | TaskError (msg : String)
deriving DecidableEq, Repr

/-- The `Display` implementation for `AppError` from `src/error.rs`. -/
def AppError.display : AppError → String
  | .UrlParseError msg => msg
  | .InvalidScheme => "Invalid URL scheme"
  | .InvalidHostname => "Hostname is either missing or invalid"
  | .UrlValidationError msg => "URL is not valid: " ++ msg
  | .CouldNotConnect msg => "Could not connect to the server: " ++ msg
  | .CouldNotReadChunk msg => "Could not read chunk: " ++ msg
  | .UnsupportedProtocol => "Unsupported protocol"
  | .StringError msg => "An error occurred: " ++ msg
  | .TaskError msg => "Task error: " ++ msg

/-- Planner `FileDownloader::calculate_byte_ranges` from `src/downloader/mod.rs`
(lines 91-104): `chunk_size = (total_file_size + connections - 1) /
connections`; range `i` is `(i * chunk_size, min (i * chunk_size +
chunk_size - 1) (total_file_size - 1))` for `i ∈ 0..connections`.
`Nat` subtraction is truncated; for `total_file_size ≥ 1` and
`connections ≥ 1` every subtraction of the source stays in range, so this
agrees with the Rust `usize` arithmetic there.  (For
`total_file_size = 0` the source underflows; see
`calculate_byte_ranges_checked`.) -/
def calculate_byte_ranges (connections total_file_size : Nat) : List (Nat × Nat) :=
  let chunk_size := (total_file_size + connections - 1) / connections
  (List.range connections).map (fun i =>
    let start := i * chunk_size
    (start, min (start + chunk_size - 1) (total_file_size - 1)))

/-- Rust debug-build subtraction on `usize`: `none` models the underflow
panic. -/
def checked_sub (a b : Nat) : Option Nat :=
  if b ≤ a then some (a - b) else none

/-- The same computation as `calculate_byte_ranges`, with every
subtraction of the Rust source given its panicking (debug) semantics:
`none` means the source panics on an arithmetic underflow. -/
def calculate_byte_ranges_checked (connections total_file_size : Nat) :
    Option (List (Nat × Nat)) := do
  let a ← checked_sub (total_file_size + connections) 1
  let chunk_size := a / connections
  (List.range connections).mapM (fun i => do
    let start := i * chunk_size
    let e1 ← checked_sub (start + chunk_size) 1
    let e2 ← checked_sub total_file_size 1
    pure (start, min e1 e2))

/-- The size-then-plan step of `run_in_foreground` (`src/main.rs` lines
68-70) and of `calculate_download_chunks` (`src/downloader/mod.rs` lines
109-112): the probed total size is passed to `calculate_byte_ranges`
unconditionally — there is no emptiness check between the probe and the
planner. -/
def planning_step (connections : Nat) (probe : Except AppError Nat) :
    Except AppError (List (Nat × Nat)) :=
  match probe with
  | .error e => .error e
  | .ok total_size => .ok (calculate_byte_ranges connections total_size)

/-- The local `chunk_size` of `calculate_byte_ranges`. -/
def chunk_size (connections total_file_size : Nat) : Nat :=
  (total_file_size + connections - 1) / connections

/-- The `i`-th entry built by the planner closure. -/
def plan_entry (c total i : Nat) : Nat × Nat :=
  (i * c, min (i * c + c - 1) (total - 1))

/-- The inclusive byte interval denoted by a planned range. -/
def range_set (p : Nat × Nat) : Finset Nat := Finset.Icc p.1 p.2

/-- Union of the intervals of a list of ranges. -/
def union_of (l : List (Nat × Nat)) : Finset Nat :=
  l.foldr (fun p s => range_set p ∪ s) ∅

lemma calculate_byte_ranges_eq (connections total : Nat) :
    calculate_byte_ranges connections total =
      (List.range connections).map (plan_entry (chunk_size connections total) total) := rfl

lemma mem_union_of {j : Nat} :
    ∀ {l : List (Nat × Nat)}, j ∈ union_of l ↔ ∃ p ∈ l, j ∈ range_set p := by
  intro l
  induction l with
  | nil => simp [union_of]
  | cons hd tl ih =>
    show j ∈ range_set hd ∪ union_of tl ↔ _
    rw [Finset.mem_union, ih]
    simp

lemma card_union_of :
    ∀ {l : List (Nat × Nat)},
      l.Pairwise (fun p q => Disjoint (range_set p) (range_set q)) →
      (union_of l).card = (l.map (fun p => (range_set p).card)).sum := by
  intro l
  induction l with
  | nil => intro _; simp [union_of]
  | cons hd tl ih =>
    intro hpw
    rw [List.pairwise_cons] at hpw
    have hdisj : Disjoint (range_set hd) (union_of tl) := by
      rw [Finset.disjoint_left]
      intro x hx hx'
      obtain ⟨q, hq, hxq⟩ := mem_union_of.mp hx'
      exact (Finset.disjoint_left.mp (hpw.1 q hq)) hx hxq
    show (range_set hd ∪ union_of tl).card = _
    rw [Finset.card_union_of_disjoint hdisj, ih hpw.2]
    simp

lemma div_eq_iff_of_pos {c : Nat} (hc : 0 < c) (i j : Nat) :
    j / c = i ↔ i * c ≤ j ∧ j < i * c + c := by
  have h1 : i ≤ j / c ↔ i * c ≤ j := Nat.le_div_iff_mul_le hc
  have h2 : j / c < i + 1 ↔ j < (i + 1) * c := Nat.div_lt_iff_lt_mul hc
  have hr : (i + 1) * c = i * c + c := by ring
  constructor
  · intro h
    refine ⟨h1.mp (by omega), ?_⟩
    have := h2.mp (by omega)
    omega
  · rintro ⟨ha, hb⟩
    have hi : i ≤ j / c := h1.mpr ha
    have hj : j / c < i + 1 := h2.mpr (by omega)
    omega

lemma mem_range_set_plan_entry {c total : Nat} (hc : 0 < c) (ht : 0 < total)
    (i j : Nat) :
    j ∈ range_set (plan_entry c total i) ↔ j < total ∧ j / c = i := by
  rw [range_set, plan_entry, Finset.mem_Icc, Nat.le_min, div_eq_iff_of_pos hc]
  generalize i * c = s
  omega

lemma chunk_size_pos {connections total : Nat} (hN : 1 ≤ connections)
    (ht : 1 ≤ total) : 0 < chunk_size connections total := by
  rw [chunk_size]
  have hb : 0 < connections := hN
  exact (Nat.one_le_div_iff hb).mpr (by omega)

lemma total_le_mul_chunk {connections total : Nat} (hN : 1 ≤ connections)
    (ht : 1 ≤ total) : total ≤ connections * chunk_size connections total := by
  have hb : 0 < connections := hN
  have hdm := Nat.div_add_mod (total + connections - 1) connections
  have hmod : (total + connections - 1) % connections < connections :=
    Nat.mod_lt _ hb
  rw [chunk_size]
  generalize (total + connections - 1) % connections = r at hdm hmod
  generalize (total + connections - 1) / connections = q at hdm ⊢
  generalize connections * q = A at hdm ⊢
  omega

lemma mul_chunk_lt {connections total : Nat} (hN : 1 ≤ connections)
    (ht : 1 ≤ total) :
    connections * chunk_size connections total < total + connections := by
  have hb : 0 < connections := hN
  have hdm := Nat.div_add_mod (total + connections - 1) connections
  rw [chunk_size]
  generalize (total + connections - 1) % connections = r at hdm
  generalize (total + connections - 1) / connections = q at hdm ⊢
  generalize connections * q = A at hdm ⊢
  omega

/-- C1 (amended): for `N ∈ [1,100]` and `total > 0` the planner ranges,
read as the (possibly empty) inclusive intervals `[start, end]`, are
pairwise disjoint, their union is `[0, total-1]`, and the sum of the
interval cardinalities `end + 1 - start` (truncated subtraction: an
inverted range counts zero bytes) equals `total`. -/
theorem planner_partitions_amended (N total : Nat)
    (hN1 : 1 ≤ N) (hN2 : N ≤ 100) (ht : 0 < total) :
    (calculate_byte_ranges N total).Pairwise
        (fun p q => Disjoint (range_set p) (range_set q))
    ∧ union_of (calculate_byte_ranges N total) = Finset.range total
    ∧ ((calculate_byte_ranges N total).map (fun p => p.2 + 1 - p.1)).sum = total := by
  have hc : 0 < chunk_size N total := chunk_size_pos hN1 ht
  have hcover : ∀ j, j < total → j / chunk_size N total < N := by
    intro j hj
    rw [Nat.div_lt_iff_lt_mul hc]
    have := total_le_mul_chunk hN1 ht
    have hcm : N * chunk_size N total = chunk_size N total * N := by ring
    omega
  have hpw : (calculate_byte_ranges N total).Pairwise
      (fun p q => Disjoint (range_set p) (range_set q)) := by
    rw [calculate_byte_ranges_eq, List.pairwise_map]
    refine (List.pairwise_lt_range N).imp ?_
    intro i k hik
    rw [Finset.disjoint_left]
    intro x hx hx'
    have h1 := (mem_range_set_plan_entry hc ht i x).mp hx
    have h2 := (mem_range_set_plan_entry hc ht k x).mp hx'
    omega
  have huni : union_of (calculate_byte_ranges N total) = Finset.range total := by
    apply Finset.ext
    intro j
    rw [mem_union_of, Finset.mem_range]
    constructor
    · rintro ⟨p, hp, hj⟩
      rw [calculate_byte_ranges_eq, List.mem_map] at hp
      obtain ⟨i, _, rfl⟩ := hp
      exact ((mem_range_set_plan_entry hc ht i j).mp hj).1
    · intro hj
      refine ⟨plan_entry (chunk_size N total) total (j / chunk_size N total), ?_, ?_⟩
      · rw [calculate_byte_ranges_eq, List.mem_map]
        exact ⟨j / chunk_size N total, List.mem_range.mpr (hcover j hj), rfl⟩
      · exact (mem_range_set_plan_entry hc ht _ j).mpr ⟨hj, rfl⟩
  refine ⟨hpw, huni, ?_⟩
  have hmap : (calculate_byte_ranges N total).map (fun p => p.2 + 1 - p.1) =
      (calculate_byte_ranges N total).map (fun p => (range_set p).card) := by
    apply List.map_congr_left
    intro p _
    rw [range_set, Nat.card_Icc]
  rw [hmap, ← card_union_of hpw, huni, Finset.card_range]

/-- C1 witness consequence at a concrete input. -/
theorem planner_partitions_amended_witness :
    ((calculate_byte_ranges 4 1000).map (fun p => p.2 + 1 - p.1)).sum = 1000 :=
  (planner_partitions_amended 4 1000 (by decide) (by decide) (by decide)).2.2

/-- C1 (counterexample): at `N = 5`, `total = 2` — inside the claimed
domain `N ∈ [1,100]`, `total > 0` — the claimed identity
`Σ (end_i - start_i + 1) = total` fails, whether the sizes are read over
the integers or with truncated natural subtraction. -/
theorem planner_partition_sum_counterexample :
    1 ≤ 5 ∧ 5 ≤ 100 ∧ 0 < 2
    ∧ ((calculate_byte_ranges 5 2).map (fun p => (p.2 : Int) - (p.1 : Int) + 1)).sum ≠ (2 : Int)
    ∧ ((calculate_byte_ranges 5 2).map (fun p => p.2 - p.1 + 1)).sum ≠ 2 := by
  decide

/-- C3 (amended): every planned range whose start lies inside the data
(`start ≤ total - 1`) satisfies `start ≤ end`; ranges past the data end
are emitted inverted. -/
theorem planner_range_order_amended (N total : Nat)
    (hN1 : 1 ≤ N) (hN2 : N ≤ 100) (ht : 0 < total) :
    ∀ p ∈ calculate_byte_ranges N total, p.1 ≤ total - 1 → p.1 ≤ p.2 := by
  intro p hp hstart
  rw [calculate_byte_ranges_eq, List.mem_map] at hp
  obtain ⟨i, _, rfl⟩ := hp
  have hc : 0 < chunk_size N total := chunk_size_pos hN1 ht
  rw [plan_entry] at hstart ⊢
  simp only [Nat.le_min]
  generalize i * chunk_size N total = s at *
  omega

/-- C3 witness consequence at a concrete input. -/
theorem planner_range_order_amended_witness :
    (8, 9) ∈ calculate_byte_ranges 3 10 ∧ (8, 9).1 ≤ (8, 9).2 :=
  ⟨by decide,
   planner_range_order_amended 3 10 (by decide) (by decide) (by decide)
     (8, 9) (by decide) (by decide)⟩

/-- C3 (counterexample): at `N = 3`, `total = 2` — inside the claimed
domain — the planner emits the range `(2, 1)` whose start exceeds its
end. -/
theorem planner_range_order_counterexample :
    1 ≤ 3 ∧ 3 ≤ 100 ∧ 0 < 2
    ∧ (2, 1) ∈ calculate_byte_ranges 3 2
    ∧ ¬ (∀ p ∈ calculate_byte_ranges 3 2, p.1 ≤ p.2) := by
  decide

/-- C5: for `N ∈ [1,100]`, `total > 0` the planner computes
`chunk = ⌈total / N⌉` (characterized by `total ≤ N·chunk < total + N`) and
returns exactly `N` ranges with `start_i = i·chunk`,
`end_i = min (start_i + chunk - 1) (total - 1)`; in particular
`plan 3 10 = [(0,3),(4,7),(8,9)]`. -/
theorem planner_formula (N total : Nat)
    (hN1 : 1 ≤ N) (hN2 : N ≤ 100) (ht : 0 < total) :
    total ≤ N * chunk_size N total
    ∧ N * chunk_size N total < total + N
    ∧ (calculate_byte_ranges N total).length = N
    ∧ (∀ i, i < N →
        (calculate_byte_ranges N total)[i]? =
          some (i * chunk_size N total,
            min (i * chunk_size N total + chunk_size N total - 1) (total - 1)))
    ∧ calculate_byte_ranges 3 10 = [(0, 3), (4, 7), (8, 9)] := by
  refine ⟨total_le_mul_chunk hN1 ht, mul_chunk_lt hN1 ht, ?_, ?_, by decide⟩
  · rw [calculate_byte_ranges_eq, List.length_map, List.length_range]
  · intro i hi
    rw [calculate_byte_ranges_eq, List.getElem?_map, List.getElem?_range hi]
    rfl

/-- C5 witness consequence at a concrete input. -/
theorem planner_formula_witness :
    (calculate_byte_ranges 3 10)[1]? = some (4, 7) := by
  have h := (planner_formula 3 10 (by decide) (by decide) (by decide)).2.2.2.1 1 (by decide)
  rw [h]
  decide

/-- C4: the pipeline applies the planner to the probed size with no
emptiness guard (`planning_step 1 (ok 0)` plans rather than failing with
`CouldNotConnect "empty resource"`), and on `total_file_size = 0` the
subtraction `total_file_size - 1` inside the planner underflows (the checked embedding of
the source arithmetic panics). -/
theorem empty_resource_not_guarded :
    planning_step 1 (Except.ok 0) = Except.ok (calculate_byte_ranges 1 0)
    ∧ calculate_byte_ranges_checked 1 0 = none
    ∧ planning_step 1 (Except.ok 0) ≠
        Except.error (AppError.CouldNotConnect ("empty resource")) := by
  refine ⟨rfl, rfl, ?_⟩
  intro h
  have h2 : planning_step 1 (Except.ok 0) = Except.ok (calculate_byte_ranges 1 0) := rfl
  rw [h2] at h
  exact Except.noConfusion h

/-- Part writer `FileSystem::write_chunk` from `src/filesystem.rs` (lines 104-122),
reduced to the number of bytes written: with `part_offset = start -
part_start`, a write at or past `max_size` is a no-op returning `0`,
otherwise `min (max_size - part_offset) chunk_len` bytes are written at
file position `part_offset`.  (`start` here is the absolute offset
argument of the Rust function.) -/
def write_chunk_size (chunk_len start part_start max_size : Nat) : Nat :=
  if max_size ≤ start - part_start then 0
  else min (max_size - (start - part_start)) chunk_len

/-- One item yielded by `response.bytes_stream()`: a received buffer
(only its length matters to the accounting) or a read error. -/
inductive StreamItem where
  | buf (size : Nat)
  | readErr (msg : String)
deriving DecidableEq, Repr

/-- Observable outcome of the streaming loop of `http::download`:
`writes` records each executed seek-and-write as `(part_offset, size)`,
`states` records `(offset, total_written)` at the head of every loop
iteration, `total_written` is its final value, `stream_err` the error a
failed stream read was carried out with. -/
structure LoopOut where
  writes : List (Nat × Nat)
  states : List (Nat × Nat)
  total_written : Nat
  stream_err : Option String
deriving DecidableEq, Repr

/-- The `while let Some(chunk) = stream.next()` loop of `http::download`
(`src/downloader/http.rs` lines 57-89): each buffer is truncated to
`write_size = min (len) (expected_size - total_written)`, handed to
`FileSystem::write_chunk`, counters advance by the written amount, and
the loop breaks once `total_written ≥ expected_size`. -/
def download_loop (expected_size part_start : Nat) :
    Nat → Nat → List StreamItem → LoopOut
  | _, tw, [] => ⟨[], [], tw, none⟩
  | offset, tw, StreamItem.readErr e :: _ => ⟨[], [(offset, tw)], tw, some e⟩
  | offset, tw, StreamItem.buf n :: rest =>
    let write_size := min n (expected_size - tw)
    let written := write_chunk_size write_size offset part_start expected_size
    if expected_size ≤ tw + written then
      ⟨if offset - part_start < expected_size
          then [(offset - part_start, written)] else [],
       [(offset, tw)], tw + written, none⟩
    else
      let rec_out := download_loop expected_size part_start
        (offset + written) (tw + written) rest
      ⟨(if offset - part_start < expected_size
          then [(offset - part_start, written)] else []) ++ rec_out.writes,
       (offset, tw) :: rec_out.states, rec_out.total_written, rec_out.stream_err⟩

/-- Observable outcome of `http::download`: the returned `Result`, the
loop observables, and whether the partial file was created. -/
structure DownloadOut where
  result : Except AppError Unit
  loop_out : LoopOut
  file_created : Bool
deriving Repr

/-- Model of Rust `str::starts_with`, as a computable prefix test on the
character lists of the strings. -/
def starts_with (s pre : String) : Bool := pre.toList.isPrefixOf s.toList

/-- Chunk downloader `http::download` from `src/downloader/http.rs` (lines 12-106), with
the network response (status, `Content-Range` header, body stream) as
input.  Order of the source checks: status must be `206`; the
`Content-Range` value must start with `bytes {start}-{end}/`; then the
partial file is created and the body streamed; finally `total_written`
must equal `expected_size = end - start + 1`. -/
def http_download (status : Nat) (status_text : String)
    (content_range : Option String) (start end_ index : Nat)
    (items : List StreamItem) : DownloadOut :=
  if status = 206 then
    match content_range with
    | none =>
      ⟨.error (.CouldNotConnect ("Missing Content-Range header")),
       ⟨[], [], 0, none⟩, false⟩
    | some cr =>
      if starts_with cr ("bytes " ++ toString start ++ "-" ++ toString end_ ++ "/") then
        let expected_size := end_ - start + 1
        let out := download_loop expected_size start start 0 items
        match out.stream_err with
        | some e => ⟨.error (.CouldNotConnect e), out, true⟩
        | none =>
          if out.total_written ≠ expected_size then
            ⟨.error (.CouldNotConnect ("Written size " ++ toString out.total_written
              ++ " does not match expected " ++ toString expected_size
              ++ " for chunk " ++ toString index)), out, true⟩
          else ⟨.ok (), out, true⟩
      else
        ⟨.error (.CouldNotConnect ("Invalid Content-Range: got " ++ cr
          ++ ", expected " ++ ("bytes " ++ toString start ++ "-" ++ toString end_ ++ "/")
          ++ "*")), ⟨[], [], 0, none⟩, false⟩
  else
    ⟨.error (.CouldNotConnect ("Request failed: " ++ status_text)),
     ⟨[], [], 0, none⟩, false⟩

/-- Transcription of the per-buffer truncation rule of the spec (§4.4 step 5):
each received buffer is written truncated to
`min (buffer.len) (expected_size - total_written)` and reading stops once
`total_written` reaches `expected_size`.  Used to compare the source's
loop against the words of the spec. -/
def spec_write_sizes (expected_size : Nat) : Nat → List Nat → List Nat
  | _, [] => []
  | tw, n :: rest =>
    let w := min n (expected_size - tw)
    if expected_size ≤ tw + w then [w]
    else w :: spec_write_sizes expected_size (tw + w) rest

/-- Predicate `seq_from o evs`: the write events `evs` fill the file sequentially
starting at part offset `o` — each write lands exactly where the previous
one ended (no gaps, no overlaps). -/
def seq_from : Nat → List (Nat × Nat) → Bool
  | _, [] => true
  | o, (po, s) :: rest => po == o && seq_from (o + s) rest

lemma download_loop_inv (expected_size part_start : Nat) :
    ∀ (items : List StreamItem) (offset tw : Nat),
      offset = part_start + tw → tw < expected_size →
      tw ≤ (download_loop expected_size part_start offset tw items).total_written
      ∧ (download_loop expected_size part_start offset tw items).total_written ≤ expected_size
      ∧ seq_from tw (download_loop expected_size part_start offset tw items).writes = true
      ∧ (∀ s ∈ (download_loop expected_size part_start offset tw items).states,
          s.1 = part_start + s.2 ∧ s.2 ≤ expected_size) := by
  intro items
  induction items with
  | nil =>
    intro offset tw hoff htw
    refine ⟨Nat.le_refl tw, Nat.le_of_lt htw, rfl, ?_⟩
    intro s hs
    simp [download_loop] at hs
  | cons hd tl ih =>
    intro offset tw hoff htw
    cases hd with
    | readErr e =>
      refine ⟨Nat.le_refl tw, Nat.le_of_lt htw, rfl, ?_⟩
      intro s hs
      simp only [download_loop, List.mem_singleton] at hs
      subst hs
      exact ⟨hoff, Nat.le_of_lt htw⟩
    | buf n =>
      have hpo : offset - part_start = tw := by omega
      have hw : write_chunk_size (min n (expected_size - tw)) offset part_start
          expected_size = min n (expected_size - tw) := by
        rw [write_chunk_size, if_neg (by omega), hpo]
        omega
      have hwle : min n (expected_size - tw) ≤ expected_size - tw := Nat.min_le_right _ _
      by_cases hbrk : expected_size ≤ tw + min n (expected_size - tw)
      · have heq : download_loop expected_size part_start offset tw
            (StreamItem.buf n :: tl) =
            ⟨[(tw, min n (expected_size - tw))], [(offset, tw)],
             tw + min n (expected_size - tw), none⟩ := by
          simp only [download_loop, hw, if_pos hbrk, hpo, if_pos htw]
        rw [heq]
        dsimp only
        refine ⟨Nat.le_add_right _ _, by omega, ?_, ?_⟩
        · simp [seq_from]
        · intro s hs
          simp only [List.mem_singleton] at hs
          subst hs
          exact ⟨hoff, Nat.le_of_lt htw⟩
      · have heq : download_loop expected_size part_start offset tw
            (StreamItem.buf n :: tl) =
            ⟨(tw, min n (expected_size - tw)) ::
              (download_loop expected_size part_start
                (offset + min n (expected_size - tw))
                (tw + min n (expected_size - tw)) tl).writes,
             (offset, tw) ::
              (download_loop expected_size part_start
                (offset + min n (expected_size - tw))
                (tw + min n (expected_size - tw)) tl).states,
             (download_loop expected_size part_start
                (offset + min n (expected_size - tw))
                (tw + min n (expected_size - tw)) tl).total_written,
             (download_loop expected_size part_start
                (offset + min n (expected_size - tw))
                (tw + min n (expected_size - tw)) tl).stream_err⟩ := by
          simp only [download_loop, hw, if_neg hbrk, hpo, if_pos htw,
            List.singleton_append]
        have hrec := ih (offset + min n (expected_size - tw))
          (tw + min n (expected_size - tw)) (by omega) (by omega)
        rw [heq]
        dsimp only
        refine ⟨by have := hrec.1; omega, hrec.2.1, ?_, ?_⟩
        · simp only [seq_from, beq_self_eq_true, Bool.true_and]
          exact hrec.2.2.1
        · intro s hs
          rcases List.mem_cons.mp hs with h | h
          · subst h
            exact ⟨hoff, Nat.le_of_lt htw⟩
          · exact hrec.2.2.2 s h

lemma spec_write_sizes_stop {expected_size tw n : Nat} (rest : List Nat)
    (h : expected_size ≤ tw + min n (expected_size - tw)) :
    spec_write_sizes expected_size tw (n :: rest) = [min n (expected_size - tw)] := by
  rw [spec_write_sizes]
  rw [if_pos h]

lemma spec_write_sizes_go {expected_size tw n : Nat} (rest : List Nat)
    (h : ¬ expected_size ≤ tw + min n (expected_size - tw)) :
    spec_write_sizes expected_size tw (n :: rest) =
      min n (expected_size - tw) ::
        spec_write_sizes expected_size (tw + min n (expected_size - tw)) rest := by
  rw [spec_write_sizes]
  rw [if_neg h]

lemma download_loop_sizes (expected_size part_start : Nat) :
    ∀ (bufs : List Nat) (offset tw : Nat),
      offset = part_start + tw → tw < expected_size →
      (download_loop expected_size part_start offset tw
          (bufs.map StreamItem.buf)).stream_err = none
      ∧ (download_loop expected_size part_start offset tw
          (bufs.map StreamItem.buf)).writes.map Prod.snd =
        spec_write_sizes expected_size tw bufs := by
  intro bufs
  induction bufs with
  | nil =>
    intro offset tw hoff htw
    exact ⟨rfl, rfl⟩
  | cons n tl ih =>
    intro offset tw hoff htw
    have hpo : offset - part_start = tw := by omega
    have hw : write_chunk_size (min n (expected_size - tw)) offset part_start
        expected_size = min n (expected_size - tw) := by
      rw [write_chunk_size, if_neg (by omega), hpo]
      omega
    by_cases hbrk : expected_size ≤ tw + min n (expected_size - tw)
    · have heq : download_loop expected_size part_start offset tw
          ((n :: tl).map StreamItem.buf) =
          ⟨[(tw, min n (expected_size - tw))], [(offset, tw)],
           tw + min n (expected_size - tw), none⟩ := by
        simp only [List.map_cons, download_loop, hw, if_pos hbrk, hpo, if_pos htw]
      rw [heq, spec_write_sizes_stop tl hbrk]
      exact ⟨rfl, rfl⟩
    · have hrec := ih (offset + min n (expected_size - tw))
        (tw + min n (expected_size - tw)) (by omega) (by omega)
      have heq : download_loop expected_size part_start offset tw
          ((n :: tl).map StreamItem.buf) =
          ⟨(tw, min n (expected_size - tw)) ::
            (download_loop expected_size part_start
              (offset + min n (expected_size - tw))
              (tw + min n (expected_size - tw)) (tl.map StreamItem.buf)).writes,
           (offset, tw) ::
            (download_loop expected_size part_start
              (offset + min n (expected_size - tw))
              (tw + min n (expected_size - tw)) (tl.map StreamItem.buf)).states,
           (download_loop expected_size part_start
              (offset + min n (expected_size - tw))
              (tw + min n (expected_size - tw)) (tl.map StreamItem.buf)).total_written,
           (download_loop expected_size part_start
              (offset + min n (expected_size - tw))
              (tw + min n (expected_size - tw)) (tl.map StreamItem.buf)).stream_err⟩ := by
        simp only [List.map_cons, download_loop, hw, if_neg hbrk, hpo, if_pos htw,
          List.singleton_append]
      rw [heq, spec_write_sizes_go tl hbrk]
      dsimp only
      refine ⟨hrec.1, ?_⟩
      rw [List.map_cons, hrec.2]

/-- C2: in the body-streaming loop of `http::download`, each received
buffer is truncated to `min (len) (expected_size - total_written)` before
writing (the sequence of written sizes is exactly the spec's truncation
sequence), `total_written` never exceeds `expected_size = end - start + 1`,
and after the stream terminates the function returns `Ok` exactly when
`total_written = expected_size`, failing otherwise with
`CouldNotConnect ("Written size X does not match expected Y for chunk i")`. -/
theorem chunk_download_write_accounting
    (start end_ index : Nat) (status_text cr : String) (bufs : List Nat)
    (hse : start ≤ end_)
    (hcr : starts_with cr
      ("bytes " ++ toString start ++ "-" ++ toString end_ ++ "/") = true) :
    ((http_download 206 status_text (some cr) start end_ index
        (bufs.map StreamItem.buf)).loop_out.writes.map Prod.snd =
      spec_write_sizes (end_ - start + 1) 0 bufs)
    ∧ (http_download 206 status_text (some cr) start end_ index
        (bufs.map StreamItem.buf)).loop_out.total_written ≤ end_ - start + 1
    ∧ ((http_download 206 status_text (some cr) start end_ index
          (bufs.map StreamItem.buf)).result = Except.ok ()
        ↔ (http_download 206 status_text (some cr) start end_ index
            (bufs.map StreamItem.buf)).loop_out.total_written = end_ - start + 1)
    ∧ ((http_download 206 status_text (some cr) start end_ index
          (bufs.map StreamItem.buf)).loop_out.total_written ≠ end_ - start + 1 →
        (http_download 206 status_text (some cr) start end_ index
          (bufs.map StreamItem.buf)).result =
        Except.error (AppError.CouldNotConnect ("Written size "
          ++ toString (http_download 206 status_text (some cr) start end_ index
              (bufs.map StreamItem.buf)).loop_out.total_written
          ++ " does not match expected " ++ toString (end_ - start + 1)
          ++ " for chunk " ++ toString index))) := by
  have hinv := download_loop_inv (end_ - start + 1) start
    (bufs.map StreamItem.buf) start 0 (by omega) (Nat.succ_pos _)
  have hsz := download_loop_sizes (end_ - start + 1) start bufs start 0
    (by omega) (Nat.succ_pos _)
  by_cases hok : (download_loop (end_ - start + 1) start start 0
      (bufs.map StreamItem.buf)).total_written = end_ - start + 1
  · have hres : http_download 206 status_text (some cr) start end_ index
        (bufs.map StreamItem.buf) =
        ⟨Except.ok (), download_loop (end_ - start + 1) start start 0
          (bufs.map StreamItem.buf), true⟩ := by
      simp [http_download, hcr, hsz.1, hok]
    rw [hres]
    refine ⟨hsz.2, hinv.2.1, ?_, ?_⟩
    · exact ⟨fun _ => hok, fun _ => rfl⟩
    · intro h
      exact absurd hok h
  · have hres : http_download 206 status_text (some cr) start end_ index
        (bufs.map StreamItem.buf) =
        ⟨Except.error (AppError.CouldNotConnect ("Written size "
          ++ toString (download_loop (end_ - start + 1) start start 0
              (bufs.map StreamItem.buf)).total_written
          ++ " does not match expected " ++ toString (end_ - start + 1)
          ++ " for chunk " ++ toString index)),
         download_loop (end_ - start + 1) start start 0
           (bufs.map StreamItem.buf), true⟩ := by
      simp [http_download, hcr, hsz.1, hok]
    rw [hres]
    refine ⟨hsz.2, hinv.2.1, ?_, fun _ => rfl⟩
    constructor
    · intro h
      exact absurd h (fun hh => Except.noConfusion hh)
    · intro h
      exact absurd h hok

/-- C2 witness consequence at a concrete input. -/
theorem chunk_download_write_accounting_witness :
    (http_download 206 "206 Partial Content" (some ("bytes 0-3/4")) 0 3 0
      ([2, 2].map StreamItem.buf)).result = Except.ok () :=
  ((chunk_download_write_accounting 0 3 0 "206 Partial Content"
    "bytes 0-3/4" [2, 2] (by decide) (by decide)).2.2.1).mpr (by decide)

/-- C8: for every response status other than 206 (200 included),
`http::download` fails with `CouldNotConnect ("Request failed: {status}")`
without creating the partial file or writing any byte to it. -/
theorem non_206_response_fails (status : Nat) (status_text : String)
    (content_range : Option String) (start end_ index : Nat)
    (items : List StreamItem) (h : status ≠ 206) :
    http_download status status_text content_range start end_ index items =
      ⟨Except.error (AppError.CouldNotConnect ("Request failed: " ++ status_text)),
       ⟨[], [], 0, none⟩, false⟩ := by
  rw [http_download.eq_def, if_neg h]

/-- C8 witness consequence at a concrete input (a `200 OK` answer). -/
theorem non_206_response_fails_witness :
    http_download 200 "200 OK" (some ("bytes 0-9/10")) 0 9 0
        [StreamItem.buf 10] =
      ⟨Except.error (AppError.CouldNotConnect ("Request failed: 200 OK")),
       ⟨[], [], 0, none⟩, false⟩ :=
  non_206_response_fails 200 "200 OK" (some ("bytes 0-9/10")) 0 9 0
    [StreamItem.buf 10] (by decide)

/-- C9: in the streaming loop started at `offset = part_start = start`,
`total_written = 0`, the invariant `offset - part_start = total_written ≤
expected_size` holds at the head of every iteration (so the subtraction
`expected_size - total_written` never underflows), and the executed
writes fill the partial file sequentially from part offset 0 — each write
lands at a part-relative offset equal to the number of bytes already
written, with no gaps and no overlaps. -/
theorem chunk_download_sequential_fill (start end_ : Nat)
    (items : List StreamItem) (hse : start ≤ end_) :
    (∀ s ∈ (download_loop (end_ - start + 1) start start 0 items).states,
        s.1 - start = s.2 ∧ s.1 = start + s.2 ∧ s.2 ≤ end_ - start + 1)
    ∧ seq_from 0 (download_loop (end_ - start + 1) start start 0 items).writes = true
    ∧ (download_loop (end_ - start + 1) start start 0 items).total_written ≤
        end_ - start + 1 := by
  have hinv := download_loop_inv (end_ - start + 1) start items start 0
    (by omega) (Nat.succ_pos _)
  refine ⟨?_, hinv.2.2.1, hinv.2.1⟩
  intro s hs
  have h := hinv.2.2.2 s hs
  exact ⟨by omega, h.1, h.2⟩

/-- C9 witness consequence at a concrete input. -/
theorem chunk_download_sequential_fill_witness :
    seq_from 0 (download_loop (7 - 4 + 1) 4 4 0
      [StreamItem.buf 2, StreamItem.buf 5]).writes = true :=
  (chunk_download_sequential_fill 4 7
    [StreamItem.buf 2, StreamItem.buf 5] (by decide)).2.1

/-- Dispatcher `ConcurrentDownloader::execute_all` from `src/concurrency.rs` (lines
60-81), modelled over the results of the spawned `DownloadTask::execute`
calls in task order.  The spawned closure calls `.unwrap()` on the chunk
result, so an `Err` panics its worker task; the join loop then calls
`.unwrap()` on the resulting `JoinError`, which panics the caller.
`none` models that panic; on success the function returns `()` — its
signature carries no error channel at all. -/
def execute_all : List (Except String Unit) → Option Unit
  | [] => some ()
  | Except.ok _ :: rest => execute_all rest
  | Except.error _ :: _ => none

/-- C6: a failing chunk task makes `execute_all` panic (modelled `none`)
instead of returning the chunk's error or a `TaskError`; only an
all-`Ok` run returns normally. -/
theorem execute_all_panics_on_task_error :
    execute_all [Except.error ("Could not connect to the server")] = none
    ∧ execute_all [Except.ok (), Except.error ("stream closed")] = none
    ∧ execute_all [Except.ok (), Except.ok ()] = some () :=
  ⟨rfl, rfl, rfl⟩

/-- The partial-file path `{output}_part_{i}` used throughout the
source (`format!("{}_part_{}", file_path.display(), i)`). -/
def part_path (output : String) (i : Nat) : String :=
  output ++ "_part_" ++ toString i

/-- The per-partial loop of `FileSystem::merge_chunks`
(`src/filesystem.rs` lines 188-220): iterate `i` upward; a missing
partial aborts with `CouldNotConnect ("Partial file missing: ...")`, an
existing one is read fully and appended to the output. -/
def merge_chunks_go (parts : Nat → Option (List Nat)) (output : String) :
    Nat → Nat → List Nat → Except AppError (List Nat)
  | _, 0, acc => .ok acc
  | i, k + 1, acc =>
    match parts i with
    | none =>
      .error (.CouldNotConnect ("Partial file missing: " ++ part_path output i))
    | some buf => merge_chunks_go parts output (i + 1) k (acc ++ buf)

/-- Merger `FileSystem::merge_chunks` from `src/filesystem.rs` (lines 177-242).
The on-disk state is `parts : Nat → Option (List Nat)` — the content of
`{output}_part_{i}`, `none` when that file does not exist; the returned
list is the content of the merged output file.  The source checks only
the existence of each partial, never its length.  File I/O is modelled
infallible and the post-merge deletion of partials, which touches no
written data, is not modelled. -/
def merge_chunks (parts : Nat → Option (List Nat)) (output : String)
    (num_chunks : Nat) : Except AppError (List Nat) :=
  merge_chunks_go parts output 0 num_chunks []

lemma merge_chunks_go_missing (parts : Nat → Option (List Nat))
    (output : String) :
    ∀ (k i0 i : Nat) (acc : List Nat), i0 ≤ i → i < i0 + k →
      parts i = none → (∀ j, i0 ≤ j → j < i → parts j ≠ none) →
      merge_chunks_go parts output i0 k acc =
        Except.error (AppError.CouldNotConnect
          ("Partial file missing: " ++ part_path output i)) := by
  intro k
  induction k with
  | zero =>
    intro i0 i acc h1 h2 _ _
    omega
  | succ k ih =>
    intro i0 i acc h1 h2 hnone hprev
    by_cases h : i = i0
    · subst h
      rw [merge_chunks_go, hnone]
    · have hi0 : parts i0 ≠ none := hprev i0 (Nat.le_refl i0) (by omega)
      obtain ⟨b, hb⟩ : ∃ b, parts i0 = some b := by
        cases hcase : parts i0 with
        | none => exact absurd hcase hi0
        | some b => exact ⟨b, rfl⟩
      rw [merge_chunks_go, hb]
      exact ih (i0 + 1) i (acc ++ b) (by omega) (by omega) hnone
        (fun j hj1 hj2 => hprev j (by omega) hj2)

/-- C7 (amended): the merge fails with
`CouldNotConnect ("Partial file missing: ...")` for the lowest-indexed
missing partial; partial sizes are never checked, so a partial shorter
than its range does not cause a failure. -/
theorem merge_missing_part_fails (parts : Nat → Option (List Nat))
    (output : String) (num_chunks i : Nat) (hi : i < num_chunks)
    (hnone : parts i = none) (hprev : ∀ j, j < i → parts j ≠ none) :
    merge_chunks parts output num_chunks =
      Except.error (AppError.CouldNotConnect
        ("Partial file missing: " ++ part_path output i)) :=
  merge_chunks_go_missing parts output num_chunks 0 i []
    (Nat.zero_le i) (by omega) hnone (fun j _ hj2 => hprev j hj2)

/-- C7 witness consequence at a concrete input. -/
theorem merge_missing_part_fails_witness :
    merge_chunks (fun j => if j = 0 then some [1] else none) "o" 2 =
      Except.error (AppError.CouldNotConnect
        ("Partial file missing: " ++ part_path ("o") 1)) :=
  merge_missing_part_fails (fun j => if j = 0 then some [1] else none)
    "o" 2 1 (by decide) rfl
    (fun j hj => by
      have hj0 : j = 0 := by omega
      subst hj0
      simp)

/-- C7 (counterexample): for the one-chunk plan of a 2-byte resource
(expected partial size 2), a state where the partial exists but holds a
single byte makes the merge succeed with a short output instead of
failing. -/
theorem merge_short_part_counterexample :
    calculate_byte_ranges 1 2 = [(0, 1)]
    ∧ ([7] : List Nat).length < 1 - 0 + 1
    ∧ merge_chunks (fun i => if i = 0 then some [7] else none) "out" 1 =
        Except.ok [7] :=
  ⟨by decide, by decide, rfl⟩

/-- The components of a parsed URL that `validate_url` inspects. -/
structure ParsedUrl where
  scheme : String
  host : Option String
deriving DecidableEq, Repr

/-- Validator `validate_url` from `src/url_validator.rs` (lines 8-23).  The result
of the foreign `Url::parse` is the input: `.error e` a parse failure with
display text `e`, `.ok u` the parsed URL.  A parse failure is wrapped as
`UrlParseError`; a scheme outside {http, https, ftp, ftps} fails with
`InvalidScheme`; a missing host fails with `InvalidHostname`. -/
def validate_url (parse_result : Except String ParsedUrl) :
    Except AppError ParsedUrl :=
  match parse_result with
  | .error e => .error (.UrlParseError e)
  | .ok u =>
    if u.scheme = "http" ∨ u.scheme = "https" ∨ u.scheme = "ftp" ∨ u.scheme = "ftps" then
      if u.host = none then .error .InvalidHostname else .ok u
    else .error .InvalidScheme

/-- The URL-validation step of `run` (`src/main.rs` lines 41-44):
`validate_url(&args.url).map_err(|e| AppError::UrlParseError(e.to_string()))` —
every validator error is wrapped as `UrlParseError` of its display
string. -/
def run_validate (parse_result : Except String ParsedUrl) :
    Except AppError ParsedUrl :=
  match validate_url parse_result with
  | .error e => .error (.UrlParseError (AppError.display e))
  | .ok u => .ok u

/-- C10: whatever the validator's reason for rejection (parse failure,
unsupported scheme, missing host), `run` surfaces it as `UrlParseError`
wrapping the validator error's display string, and no input ever
surfaces `InvalidScheme` or `InvalidHostname` as its own kind at the top
level. -/
theorem run_wraps_validator_errors (p : Except String ParsedUrl)
    (e : AppError) (h : validate_url p = Except.error e) :
    run_validate p = Except.error (AppError.UrlParseError (AppError.display e))
    ∧ (∀ q : Except String ParsedUrl,
        run_validate q ≠ Except.error AppError.InvalidScheme
        ∧ run_validate q ≠ Except.error AppError.InvalidHostname) := by
  constructor
  · rw [run_validate, h]
  · intro q
    cases hq : validate_url q with
    | error e2 =>
      rw [run_validate, hq]
      exact ⟨by intro hc; injection hc with hc2; exact AppError.noConfusion hc2,
             by intro hc; injection hc with hc2; exact AppError.noConfusion hc2⟩
    | ok u =>
      rw [run_validate, hq]
      exact ⟨fun hc => Except.noConfusion hc, fun hc => Except.noConfusion hc⟩

/-- C10 witness consequence at a concrete input (an unsupported
scheme). -/
theorem run_wraps_validator_errors_witness :
    run_validate (Except.ok ⟨"gopher", some ("example.com")⟩) =
      Except.error (AppError.UrlParseError (AppError.display AppError.InvalidScheme)) :=
  (run_wraps_validator_errors (Except.ok ⟨"gopher", some ("example.com")⟩)
    AppError.InvalidScheme rfl).1

end Rtget
